import Mathlib

/-!
# Verification of the fabric-logging-system read/write reconciliation layer

Shallow embedding of the logging system's core data paths:

* the Go chaincode (`LoggingContract`: `CreateLog`, `ReadLog`, `GetAllLogs`,
  `GetLogsByUser/Action/Resource/TimeRange`, `LogExists`),
* the Express routes in `backend/src/routes/logs.js` (metadata
  normalization, route registration order, the sweep-and-merge fallback of
  `GET /api/logs`, and `POST /api/logs`),
* the CouchDB metadata coercion in `backend/src/utils/couchdb.js`,
* the frontend aggregation in `frontend/src/pages/LogsList.js`
  (`deduplicateLogs`), and
* the automatic request-logging middleware.

JavaScript/JSON dynamic values are modelled by the `Json` inductive;
`JSON.parse` is modelled by an executable recursive-descent parser
(`jsonParse`) over the JSON fragment the system uses (null, booleans,
integers, escape-free strings, arrays, objects), and `JSON.stringify` by
`stringifyJson`.
-/

/-- Model of a JavaScript/JSON dynamic value (the shapes the system's
`metadata` field can take). Numbers are modelled as integers, the fragment
the repository exercises. -/
inductive Json where
  | null : Json
  | bool (b : Bool) : Json
  | num (n : Int) : Json
  | str (s : String) : Json
  | arr (elems : List Json) : Json
  | obj (fields : List (String × Json)) : Json
deriving Repr

mutual

/-- Decidable equality for `Json` (written by hand: the nested list
occurrences prevent automatic derivation). -/
def Json.decEq : (a b : Json) → Decidable (a = b)
  | .null, .null => isTrue rfl
  | .bool a, .bool b =>
    match Bool.decEq a b with
    | isTrue h => isTrue (by rw [h])
    | isFalse h => isFalse (fun hh => h (by injection hh))
  | .num a, .num b =>
    match Int.decEq a b with
    | isTrue h => isTrue (by rw [h])
    | isFalse h => isFalse (fun hh => h (by injection hh))
  | .str a, .str b =>
    match String.decEq a b with
    | isTrue h => isTrue (by rw [h])
    | isFalse h => isFalse (fun hh => h (by injection hh))
  | .arr xs, .arr ys =>
    match Json.decEqList xs ys with
    | isTrue h => isTrue (by rw [h])
    | isFalse h => isFalse (fun hh => h (by injection hh))
  | .obj xs, .obj ys =>
    match Json.decEqFields xs ys with
    | isTrue h => isTrue (by rw [h])
    | isFalse h => isFalse (fun hh => h (by injection hh))
  | .null, .bool _ => isFalse (fun h => by cases h)
  | .null, .num _ => isFalse (fun h => by cases h)
  | .null, .str _ => isFalse (fun h => by cases h)
  | .null, .arr _ => isFalse (fun h => by cases h)
  | .null, .obj _ => isFalse (fun h => by cases h)
  | .bool _, .null => isFalse (fun h => by cases h)
  | .bool _, .num _ => isFalse (fun h => by cases h)
  | .bool _, .str _ => isFalse (fun h => by cases h)
  | .bool _, .arr _ => isFalse (fun h => by cases h)
  | .bool _, .obj _ => isFalse (fun h => by cases h)
  | .num _, .null => isFalse (fun h => by cases h)
  | .num _, .bool _ => isFalse (fun h => by cases h)
  | .num _, .str _ => isFalse (fun h => by cases h)
  | .num _, .arr _ => isFalse (fun h => by cases h)
  | .num _, .obj _ => isFalse (fun h => by cases h)
  | .str _, .null => isFalse (fun h => by cases h)
  | .str _, .bool _ => isFalse (fun h => by cases h)
  | .str _, .num _ => isFalse (fun h => by cases h)
  | .str _, .arr _ => isFalse (fun h => by cases h)
  | .str _, .obj _ => isFalse (fun h => by cases h)
  | .arr _, .null => isFalse (fun h => by cases h)
  | .arr _, .bool _ => isFalse (fun h => by cases h)
  | .arr _, .num _ => isFalse (fun h => by cases h)
  | .arr _, .str _ => isFalse (fun h => by cases h)
  | .arr _, .obj _ => isFalse (fun h => by cases h)
  | .obj _, .null => isFalse (fun h => by cases h)
  | .obj _, .bool _ => isFalse (fun h => by cases h)
  | .obj _, .num _ => isFalse (fun h => by cases h)
  | .obj _, .str _ => isFalse (fun h => by cases h)
  | .obj _, .arr _ => isFalse (fun h => by cases h)

/-- Decidable equality for lists of `Json` values. -/
def Json.decEqList : (a b : List Json) → Decidable (a = b)
  | [], [] => isTrue rfl
  | [], _ :: _ => isFalse (fun h => by cases h)
  | _ :: _, [] => isFalse (fun h => by cases h)
  | x :: xs, y :: ys =>
    match Json.decEq x y with
    | isFalse h => isFalse (fun hh => h (List.cons.inj hh).1)
    | isTrue h1 =>
      match Json.decEqList xs ys with
      | isTrue h2 => isTrue (by rw [h1, h2])
      | isFalse h => isFalse (fun hh => h (List.cons.inj hh).2)

/-- Decidable equality for lists of `Json` object fields. -/
def Json.decEqFields : (a b : List (String × Json)) → Decidable (a = b)
  | [], [] => isTrue rfl
  | [], _ :: _ => isFalse (fun h => by cases h)
  | _ :: _, [] => isFalse (fun h => by cases h)
  | (k1, v1) :: xs, (k2, v2) :: ys =>
    match String.decEq k1 k2 with
    | isFalse h => isFalse (fun hh => h (Prod.mk.inj (List.cons.inj hh).1).1)
    | isTrue hk =>
      match Json.decEq v1 v2 with
      | isFalse h => isFalse (fun hh => h (Prod.mk.inj (List.cons.inj hh).1).2)
      | isTrue hv =>
        match Json.decEqFields xs ys with
        | isTrue ht => isTrue (by rw [hk, hv, ht])
        | isFalse h => isFalse (fun hh => h (List.cons.inj hh).2)

end

instance : DecidableEq Json := Json.decEq

/-- JavaScript truthiness of a `Json` value (`!value` in the source):
`null`, `false`, `0` and `""` are falsy; objects and arrays are always
truthy. -/
def Json.truthy : Json → Bool
  | .null => false
  | .bool b => b
  | .num n => n != 0
  | .str s => s != ""
  | .arr _ => true
  | .obj _ => true

/-- Whether a `Json` value is an object (`{...}`). -/
def Json.isObj : Json → Bool
  | .obj _ => true
  | _ => false

/-- Whether a `Json` value is a string (`typeof v === 'string'`). -/
def Json.isStr : Json → Bool
  | .str _ => true
  | _ => false

/-- Truthiness of a possibly-absent JavaScript value (`undefined` is
falsy). -/
def rawTruthy : Option Json → Bool
  | none => false
  | some v => v.truthy

/-- Skip JSON whitespace characters. -/
def skipWs : List Char → List Char
  | c :: cs => if c = ' ' ∨ c = '\t' ∨ c = '\n' ∨ c = '\r' then skipWs cs else c :: cs
  | [] => []

/-- Parse the remainder of a JSON string literal, after its opening quote.
Escape sequences are outside the modelled fragment. -/
def parseStringRest : List Char → Option (String × List Char)
  | [] => none
  | c :: cs =>
    if c = '"' then some ("", cs)
    else if c = '\\' then none
    else match parseStringRest cs with
      | some (s, rest) => some (String.mk (c :: s.data), rest)
      | none => none

/-- Split a leading run of decimal digits from the input. -/
def takeDigits : List Char → (List Char × List Char)
  | [] => ([], [])
  | c :: cs =>
    if c.isDigit then
      let (ds, rest) := takeDigits cs
      (c :: ds, rest)
    else ([], c :: cs)

/-- Numeric value of a digit run. -/
def digitsToNat (ds : List Char) : Nat :=
  ds.foldl (fun acc c => acc * 10 + (c.toNat - '0'.toNat)) 0

mutual

/-- Fueled recursive-descent parser for one JSON value; models
`JSON.parse` on the fragment the system uses. Returns the parsed value and
the unconsumed input. -/
def parseVal : Nat → List Char → Option (Json × List Char)
  | 0, _ => none
  | fuel + 1, cs =>
    match skipWs cs with
    | 'n' :: 'u' :: 'l' :: 'l' :: rest => some (.null, rest)
    | 't' :: 'r' :: 'u' :: 'e' :: rest => some (.bool true, rest)
    | 'f' :: 'a' :: 'l' :: 's' :: 'e' :: rest => some (.bool false, rest)
    | '"' :: rest =>
      (match parseStringRest rest with
       | some (s, rest1) => some (.str s, rest1)
       | none => none)
    | '[' :: rest =>
      (match skipWs rest with
       | ']' :: rest1 => some (.arr [], rest1)
       | _ =>
         match parseElems fuel (skipWs rest) with
         | some (vs, rest1) => some (.arr vs, rest1)
         | none => none)
    | '\x7b' :: rest =>
      (match skipWs rest with
       | '\x7d' :: rest1 => some (.obj [], rest1)
       | _ =>
         match parseFields fuel (skipWs rest) with
         | some (fs, rest1) => some (.obj fs, rest1)
         | none => none)
    | '-' :: rest =>
      (match takeDigits rest with
       | ([], _) => none
       | (ds, rest1) => some (.num (-(digitsToNat ds : Int)), rest1))
    | c :: rest =>
      if c.isDigit then
        match takeDigits (c :: rest) with
        | (ds, rest1) => some (.num (digitsToNat ds), rest1)
      else none
    | [] => none

/-- Parse the non-empty element list of a JSON array, up to and including
the closing bracket. -/
def parseElems : Nat → List Char → Option (List Json × List Char)
  | 0, _ => none
  | fuel + 1, cs =>
    match parseVal fuel cs with
    | none => none
    | some (v, rest) =>
      match skipWs rest with
      | ',' :: rest1 =>
        (match parseElems fuel rest1 with
         | some (vs, rest2) => some (v :: vs, rest2)
         | none => none)
      | ']' :: rest1 => some ([v], rest1)
      | _ => none

/-- Parse the non-empty field list of a JSON object, up to and including
the closing brace. -/
def parseFields : Nat → List Char → Option (List (String × Json) × List Char)
  | 0, _ => none
  | fuel + 1, cs =>
    match skipWs cs with
    | '"' :: rest =>
      (match parseStringRest rest with
       | none => none
       | some (k, rest1) =>
         match skipWs rest1 with
         | ':' :: rest2 =>
           (match parseVal fuel rest2 with
            | none => none
            | some (v, rest3) =>
              match skipWs rest3 with
              | ',' :: rest4 =>
                (match parseFields fuel rest4 with
                 | some (fs, rest5) => some ((k, v) :: fs, rest5)
                 | none => none)
              | '\x7d' :: rest4 => some ([(k, v)], rest4)
              | _ => none)
         | _ => none)
    | _ => none

end

/-- Model of `JSON.parse`: parses one value and requires only whitespace to
remain; `none` models a thrown `SyntaxError`. -/
def jsonParse (s : String) : Option Json :=
  match parseVal (s.length + 1) s.data with
  | some (v, rest) => if skipWs rest = [] then some v else none
  | none => none

mutual

/-- Model of `JSON.stringify` on the modelled fragment (no escaping, which
the fragment never needs). -/
def stringifyJson : Json → String
  | .null => "null"
  | .bool true => "true"
  | .bool false => "false"
  | .num n => toString n
  | .str s => "\"" ++ s ++ "\""
  | .arr vs => "[" ++ stringifyElems vs ++ "]"
  | .obj fs => "\x7b" ++ stringifyFields fs ++ "\x7d"

/-- Comma-separated serialization of array elements. -/
def stringifyElems : List Json → String
  | [] => ""
  | [v] => stringifyJson v
  | v :: vs => stringifyJson v ++ "," ++ stringifyElems vs

/-- Comma-separated serialization of object fields. -/
def stringifyFields : List (String × Json) → String
  | [] => ""
  | [(k, v)] => "\"" ++ k ++ "\":" ++ stringifyJson v
  | (k, v) :: fs => "\"" ++ k ++ "\":" ++ stringifyJson v ++ "," ++ stringifyFields fs

end

/-- A log record as it circulates in the Node layer after `JSON.parse` of a
chain payload: string fields plus a dynamic `metadata` slot (`none` models
an absent field). -/
structure RawLog where
  id : String
  userId : String
  action : String
  resource : String
  timestamp : String
  description : String
  metadata : Option Json
deriving Repr, DecidableEq

/-- The metadata computation of `processLogMetadata`
(`backend/src/routes/logs.js` lines 10-28): falsy metadata becomes `{}`; a
string is `JSON.parse`d, keeping whatever value results (object or not),
with `{}` on parse failure; any other truthy value is kept as-is. -/
def processMetadataValue (m : Option Json) : Json :=
  if rawTruthy m = false then .obj []
  else
    match m with
    | some (.str s) =>
      (match jsonParse s with
       | some v => v
       | none => .obj [])
    | some v => v
    | none => .obj []

/-- Model of `processLogMetadata` from `backend/src/routes/logs.js` lines 10-28: a
shallow copy of the log with the metadata slot processed. -/
def processLogMetadata (log : RawLog) : RawLog :=
  { log with metadata := some (processMetadataValue log.metadata) }

/-- The inline metadata coercion of the `GET /api/logs` primary path
(`backend/src/routes/logs.js` lines 61-70), which tests
`metadata === undefined || metadata === null` instead of truthiness. -/
def processMetadataValueAll (m : Option Json) : Json :=
  match m with
  | none => .obj []
  | some .null => .obj []
  | some (.str s) =>
    (match jsonParse s with
     | some v => v
     | none => .obj [])
  | some v => v

/-- The per-record normalization of the `GET /api/logs` primary path
(`backend/src/routes/logs.js` lines 56-73). -/
def processLogMetadataAll (log : RawLog) : RawLog :=
  { log with metadata := some (processMetadataValueAll log.metadata) }

/-- The metadata coercion of `queryLogsFromCouchDB`
(`backend/src/utils/couchdb.js` lines 89-100): a string is parsed, and a
parse failure wraps the raw string as `{raw: metadata}`; a falsy non-string
becomes `{}`; anything else is kept. -/
def couchProcessMetadata (m : Option Json) : Json :=
  match m with
  | some (.str s) =>
    (match jsonParse s with
     | some v => v
     | none => .obj [("raw", .str s)])
  | some v => if v.truthy then v else .obj []
  | none => .obj []

/-- A `LogEvent` as stored by the Go chaincode: every field is a string;
`Metadata` is stored as provided, serialized text (`json:"metadata,omitempty"`). -/
structure LogEvent where
  id : String
  userId : String
  action : String
  resource : String
  timestamp : String
  description : String
  metadata : String
deriving Repr, DecidableEq

/-- The Fabric world state: an association list from ledger key to stored
`LogEvent` (keys are unique; `CreateLog` refuses collisions). -/
abbrev Ledger := List (String × LogEvent)

/-- Chaincode state access `GetStub().GetState(id)`: the stored value under a key, if any. -/
def getState (l : Ledger) (id : String) : Option LogEvent :=
  (l.find? (fun p => p.1 == id)).map Prod.snd

/-- Model of `LogExists` (chaincode): true when the key holds a value. -/
def logExists (l : Ledger) (id : String) : Bool :=
  (getState l id).isSome

/-- Model of `CreateLog` (chaincode): rejects an existing id with
`"the log <id> already exists"`, otherwise stores the record with the
supplied fields verbatim and `Timestamp` set to the invocation time
(`time.Now()`, passed here as `now`). -/
def createLog (l : Ledger) (id userId action resource description metadata now : String) :
    Except String Ledger :=
  if logExists l id then
    .error ("the log " ++ id ++ " already exists")
  else
    .ok ((id, ⟨id, userId, action, resource, now, description, metadata⟩) :: l)

/-- Model of `ReadLog` (chaincode): errors with `"the log <id> does not exist"` on a
missing key. -/
def readLog (l : Ledger) (id : String) : Except String LogEvent :=
  match getState l id with
  | none => .error ("the log " ++ id ++ " does not exist")
  | some e => .ok e

/-- Byte-wise lexicographic string order, the order CouchDB/Fabric use for
range scans over keys and for `$gte`/`$lte` comparisons on ISO-8601
timestamp strings. -/
def charListLe : List Char → List Char → Bool
  | [], _ => true
  | _ :: _, [] => false
  | a :: as, b :: bs =>
    if a.val < b.val then true
    else if b.val < a.val then false
    else charListLe as bs

/-- String comparison `a <= b` on `tsLe a b`. -/
def tsLe (a b : String) : Bool := charListLe a.data b.data

/-- Insert a keyed entry into a key-sorted list (helper for the key-ordered
world-state enumeration). -/
def insertByKey (p : String × LogEvent) : List (String × LogEvent) → List (String × LogEvent)
  | [] => [p]
  | q :: rest => if tsLe p.1 q.1 then p :: q :: rest else q :: insertByKey p rest

/-- World-state enumeration order: Fabric's `GetStateByRange` (and CouchDB
queries) return entries in lexicographic key order. -/
def sortByKey (l : Ledger) : List (String × LogEvent) :=
  l.foldr insertByKey []

/-- The records of the ledger in enumeration order. -/
def ledgerEvents (l : Ledger) : List LogEvent :=
  (sortByKey l).map Prod.snd

/-- Model of `GetAllLogs` (chaincode): every record, in range-scan order. -/
def getAllLogs (l : Ledger) : List LogEvent := ledgerEvents l

/-- Model of `GetLogsByUser` (chaincode): the records whose `userId` equals the
argument (CouchDB selector query). -/
def getLogsByUser (l : Ledger) (userId : String) : List LogEvent :=
  (ledgerEvents l).filter (fun e => e.userId == userId)

/-- Model of `GetLogsByAction` (chaincode). -/
def getLogsByAction (l : Ledger) (action : String) : List LogEvent :=
  (ledgerEvents l).filter (fun e => e.action == action)

/-- Model of `GetLogsByResource` (chaincode). -/
def getLogsByResource (l : Ledger) (resource : String) : List LogEvent :=
  (ledgerEvents l).filter (fun e => e.resource == resource)

/-- Model of `GetLogsByTimeRange` (chaincode): selector
`timestamp >= startTime && timestamp <= endTime`, inclusive on both ends. -/
def getLogsByTimeRange (l : Ledger) (startTime endTime : String) : List LogEvent :=
  (ledgerEvents l).filter (fun e => tsLe startTime e.timestamp && tsLe e.timestamp endTime)

/-- The composite of the chaincode's `json.Marshal` of a `LogEvent` and the
route's `JSON.parse` of the payload: field names survive unchanged and the
`omitempty` tag drops an empty `Metadata` string (yielding an absent slot),
while a non-empty one arrives as a JSON string value. -/
def rawOfEvent (e : LogEvent) : RawLog :=
  { id := e.id, userId := e.userId, action := e.action, resource := e.resource,
    timestamp := e.timestamp, description := e.description,
    metadata := if e.metadata = "" then none else some (.str e.metadata) }

/-- The route-side decoding of a list-returning `evaluateTransaction`
result: the chaincode returns a `nil` slice — an empty payload — when
nothing matches, and `JSON.parse` of that payload throws (`none` here;
`routes/logs.js` itself handles exactly this, cf. the
`toString().trim() === ''` checks at lines 137/167/220 and the
`Unexpected end of JSON input` branches); a non-empty result parses back to
the marshalled records. -/
def chainListResult (ls : List LogEvent) : Option (List RawLog) :=
  if ls.isEmpty then none else some (ls.map rawOfEvent)

/-- An HTTP response of the logs API: a success payload carrying a list of
records, a single record, or a failure status with its message. -/
inductive Resp where
  | ok (logs : List RawLog) : Resp
  | okLog (log : RawLog) : Resp
  | fail (status : Nat) (message : String) : Resp
deriving Repr, DecidableEq

/-- Route `GET /api/logs/user/:userId` (`routes/logs.js` lines 325-354). The
argument models the outcome of `evaluateTransaction('GetLogsByUser', u)`:
`Except.error` a thrown call, `Except.ok` a returned record list. Any
throw — including the `JSON.parse` failure on a miss — lands in the route's
catch-all, a 500 failure. -/
def routeGetLogsByUser (call : Except Unit (List LogEvent)) : Resp :=
  match call with
  | .error _ => .fail 500 "Failed to get logs by user"
  | .ok ls =>
    match chainListResult ls with
    | none => .fail 500 "Failed to get logs by user"
    | some logs => .ok (logs.map processLogMetadata)

/-- Route `GET /api/logs/action/:action` (`routes/logs.js` lines 360-389). -/
def routeGetLogsByAction (call : Except Unit (List LogEvent)) : Resp :=
  match call with
  | .error _ => .fail 500 "Failed to get logs by action"
  | .ok ls =>
    match chainListResult ls with
    | none => .fail 500 "Failed to get logs by action"
    | some logs => .ok (logs.map processLogMetadata)

/-- Route `GET /api/logs/resource/:resource` (`routes/logs.js` lines 395-424). -/
def routeGetLogsByResource (call : Except Unit (List LogEvent)) : Resp :=
  match call with
  | .error _ => .fail 500 "Failed to get logs by resource"
  | .ok ls =>
    match chainListResult ls with
    | none => .fail 500 "Failed to get logs by resource"
    | some logs => .ok (logs.map processLogMetadata)

/-- Route `GET /api/logs/:id` (`routes/logs.js` lines 290-319): `ReadLog` plus
`processLogMetadata`; a chaincode error (missing id) throws into the
catch-all 500. -/
def routeGetLogById (l : Ledger) (id : String) : Resp :=
  match readLog l id with
  | .error _ => .fail 500 "Failed to get log"
  | .ok e => .okLog (processLogMetadata (rawOfEvent e))

/-- The `GET /api/logs/timerange` handler body (`routes/logs.js` lines
430-466): a missing or empty bound is rejected with a 400 before any store
call; otherwise the chaincode time-range query runs. -/
def routeGetLogsByTimerange (l : Ledger) (startTime endTime : Option String) : Resp :=
  match startTime, endTime with
  | some s, some e =>
    if s = "" ∨ e = "" then .fail 400 "Both startTime and endTime are required"
    else
      match chainListResult (getLogsByTimeRange l s e) with
      | none => .fail 500 "Failed to get logs by time range"
      | some logs => .ok (logs.map processLogMetadata)
  | _, _ => .fail 400 "Both startTime and endTime are required"

/-- The routes of `routes/logs.js` reachable by a GET request, in their
registration order. -/
inductive LogsGetRoute where
  | allLogs : LogsGetRoute
  | byId (id : String) : LogsGetRoute
  | byUser (userId : String) : LogsGetRoute
  | byAction (action : String) : LogsGetRoute
  | byResource (resource : String) : LogsGetRoute
  | timerange : LogsGetRoute
deriving Repr, DecidableEq

/-- Express route matching over the path segments below `/api/logs`, in
registration order (`routes/logs.js`: `'/'` at 34, `'/:id'` at 290,
`'/user/:userId'` at 325, `'/action/:action'` at 360,
`'/resource/:resource'` at 395, `'/timerange'` at 430). `'/:id'` matches
any single segment, so it captures `/timerange` — registered later — as
`id = "timerange"`. -/
def matchLogsGetRoute : List String → Option LogsGetRoute
  | [] => some .allLogs
  | [s] => some (.byId s)
  | ["user", u] => some (.byUser u)
  | ["action", a] => some (.byAction a)
  | ["resource", r] => some (.byResource r)
  | _ => none

/-- The fixed action list of the `GET /api/logs` sweep fallback
(`routes/logs.js` line 90). -/
def sweepActions : List String :=
  ["LOGIN", "LOGOUT", "CREATE", "UPDATE", "DELETE", "VIEW", "API_CALL", "TRANSACTION", "ERROR"]

/-- The fixed resource list of the sweep fallback (line 91). -/
def sweepResources : List String :=
  ["application", "document", "/dashboard", "/api", "user", "system"]

/-- Epoch bound `new Date(0).toISOString()` (line 112): the epoch lower bound of the
sweep's time-range discovery query. -/
def epochTs : String := "1970-01-01T00:00:00.000Z"

/-- Model of `discoveredUsers.add(log.userId)` over a JavaScript `Set`: insertion
order, no duplicates, only truthy (non-empty) user ids. -/
def addUser (s : List String) (u : String) : List String :=
  if u ∈ s then s else s ++ [u]

/-- Collect the truthy user ids of a query result into the discovery set
(lines 120-124 and analogous loops). -/
def usersOf (logs : List LogEvent) (s : List String) : List String :=
  logs.foldl (fun acc e => if e.userId = "" then acc else addUser acc e.userId) s

/-- User discovery of the sweep fallback (`routes/logs.js` lines 93-210):
the epoch-to-now time-range query, then each known action, then each known
resource; if nothing was discovered, the request's `userId` query parameter
(when truthy) is used. -/
def discoveredUsers (l : Ledger) (nowTs : String) (reqUserId : Option String) : List String :=
  let s1 := usersOf (getLogsByTimeRange l epochTs nowTs) []
  let s2 := sweepActions.foldl (fun acc a => usersOf (getLogsByAction l a) acc) s1
  let s3 := sweepResources.foldl (fun acc r => usersOf (getLogsByResource l r) acc) s2
  if s3.isEmpty then
    match reqUserId with
    | some u => if u = "" then [] else [u]
    | none => []
  else s3

/-- The sweep's per-user accumulation (lines 213-256): for each discovered
user, the user's ledger records, normalized like `processLogMetadata`, are
appended to `combinedLogs`; empty results are skipped (which appending the
empty list also models). -/
def sweepCombined (l : Ledger) (users : List String) : List RawLog :=
  users.foldl (fun acc u => acc ++ ((getLogsByUser l u).map rawOfEvent).map processLogMetadata) []

/-- One `Map.set` step of
`new Map(combinedLogs.map(log => [log.id, log]))` (line 259): a repeated
key keeps its original position but takes the latest value. -/
def mapSet (m : List (String × RawLog)) (log : RawLog) : List (String × RawLog) :=
  match m with
  | [] => [(log.id, log)]
  | (k, v) :: rest => if k = log.id then (k, log) :: rest else (k, v) :: mapSet rest log

/-- Model of `Array.from(new Map(combinedLogs.map(log => [log.id, log])).values())`
(line 259): deduplication by id, last instance wins, first-insertion
order. -/
def mapDedup (logs : List RawLog) : List RawLog :=
  (logs.foldl mapSet []).map Prod.snd

/-- Route `GET /api/logs` (`routes/logs.js` lines 34-284). `primaryThrows` says
whether `evaluateTransaction('GetAllLogs')` throws in this deployment
(entering the sweep fallback, lines 86-274); otherwise the primary path
parses the full enumeration — whose empty payload on an empty ledger is a
parse failure answered with 500 at lines 46-53 — and normalizes each
record. The sweep returns 200 with `[]` when no user is discovered (lines
203-210) and otherwise the deduplicated per-user union, unsorted. -/
def routeGetAll (primaryThrows : Bool) (l : Ledger) (reqUserId : Option String)
    (nowTs : String) : Resp :=
  if primaryThrows then
    let users := discoveredUsers l nowTs reqUserId
    if users.isEmpty then .ok []
    else .ok (mapDedup (sweepCombined l users))
  else
    match chainListResult (getAllLogs l) with
    | none => .fail 500 "Failed to parse logs data"
    | some logs => .ok (logs.map processLogMetadataAll)

/-- Dispatch of a GET request below `/api/logs` through the Express
matching order to the corresponding handler, with the chaincode calls
instantiated from the ledger. -/
def handleLogsGet (l : Ledger) (primaryThrows : Bool) (reqUserId : Option String)
    (nowTs : String) (segments : List String) (startTime endTime : Option String) : Resp :=
  match matchLogsGetRoute segments with
  | some .allLogs => routeGetAll primaryThrows l reqUserId nowTs
  | some (.byId id) => routeGetLogById l id
  | some (.byUser u) => routeGetLogsByUser (.ok (getLogsByUser l u))
  | some (.byAction a) => routeGetLogsByAction (.ok (getLogsByAction l a))
  | some (.byResource r) => routeGetLogsByResource (.ok (getLogsByResource l r))
  | some .timerange => routeGetLogsByTimerange l startTime endTime
  | none => .fail 404 "Not Found"

/-- Outcome of `POST /api/logs`. -/
inductive PostResp where
  | created (logId : String) (newLedger : Ledger) : PostResp
  | badRequest (message : String) : PostResp
  | serverError (message : String) : PostResp
deriving Repr, DecidableEq

/-- The metadata serialization of `POST /api/logs` (`routes/logs.js` lines
484-498): absent or falsy metadata keeps the `'{}'` default; a string is
used as-is and any other value is `JSON.stringify`ed, and the result must
`JSON.parse` back (otherwise 400, modelled by `none`). -/
def metadataStringOf (metadata : Option Json) : Option String :=
  match metadata with
  | none => some "\x7b\x7d"
  | some v =>
    if v.truthy = false then some "\x7b\x7d"
    else
      match v with
      | .str s => if (jsonParse s).isSome then some s else none
      | _ =>
        let s := stringifyJson v
        if (jsonParse s).isSome then some s else none

/-- Route `POST /api/logs` (`routes/logs.js` lines 472-536): requires truthy
`userId`, `action` and `resource`; serializes metadata; submits `CreateLog`
with a fresh id (`freshId` models the generated `LOG<uuid>` value) and the
description defaulted by `description || ''`. -/
def postLog (l : Ledger) (userId action resource : String) (description : Option String)
    (metadata : Option Json) (freshId now : String) : PostResp :=
  if userId = "" ∨ action = "" ∨ resource = "" then
    .badRequest "userId, action, and resource are required fields"
  else
    match metadataStringOf metadata with
    | none => .badRequest "metadata must be valid JSON"
    | some ms =>
      match createLog l freshId userId action resource (description.getD "") ms now with
      | .ok l1 => .created freshId l1
      | .error e => .serverError e

/-- Defined arity of the chaincode's `CreateLog` transaction function: six
client-supplied parameters (`id, userId, action, resource, description,
metadata`) — there is no timestamp parameter. A Fabric submission whose
argument count differs from the declared parameter count is rejected by the
contract API before the function body runs; the modelled error mirrors
that rejection. -/
def invokeCreateLog (l : Ledger) (now : String) (args : List String) : Except String Ledger :=
  match args with
  | [id, userId, action, resource, description, metadata] =>
    createLog l id userId action resource description metadata now
  | _ => .error "incorrect number of params"

/-- The request data the automatic logging middleware collects
(`middleware/loggingMiddleware.js` lines 7-36): the generated uuid, the
`user-id` header (or `anonymous`), the request URL and method, the request
start time, and the stringified metadata object. -/
structure ApiRequest where
  reqId : String
  userId : String
  originalUrl : String
  method : String
  startTs : String
  metadataStr : String

/-- The argument list of the middleware's
`contract.submitTransaction('CreateLog', ...)` call (lines 63-72): seven
arguments — `id, userId, 'API_REQUEST', resource, timestamp, description,
metadata`. -/
def middlewareCreateLogArgs (r : ApiRequest) : List String :=
  [r.reqId, r.userId, "API_REQUEST", r.originalUrl, r.startTs,
   r.method ++ " request to " ++ r.originalUrl, r.metadataStr]

/-- The middleware's post-response submission step: a failed submission is
caught and only logged (lines 75-76), so the world state is left as it
was. -/
def middlewareStep (l : Ledger) (now : String) (r : ApiRequest) : Ledger :=
  match invokeCreateLog l now (middlewareCreateLogArgs r) with
  | .ok l1 => l1
  | .error _ => l

/-- One `uniqueLogMap[key]` update of the frontend `deduplicateLogs`
(`frontend/src/pages/LogsList.js` lines 74-82): the first instance of an id
is stored, and a later instance replaces it only when its timestamp is
strictly newer; object key order is first-insertion order. `tv` models
`new Date(timestamp)` as a numeric time value. -/
def objSet (tv : String → Int) (acc : List RawLog) (log : RawLog) : List RawLog :=
  match acc with
  | [] => [log]
  | x :: rest =>
    if x.id = log.id then
      (if tv x.timestamp < tv log.timestamp then log else x) :: rest
    else x :: objSet tv rest log

/-- The map-building phase of `deduplicateLogs` (lines 72-82). -/
def dedupByNewest (tv : String → Int) (logs : List RawLog) : List RawLog :=
  logs.foldl (objSet tv) []

/-- One insertion step of sorting by `new Date(b.timestamp) - new
Date(a.timestamp)` — timestamp descending. -/
def insertDesc (tv : String → Int) (log : RawLog) : List RawLog → List RawLog
  | [] => [log]
  | x :: rest =>
    if tv x.timestamp < tv log.timestamp then log :: x :: rest
    else x :: insertDesc tv log rest

/-- The sort phase of `deduplicateLogs` (lines 85-87): the comparator
orders by timestamp, newest first. -/
def sortDesc (tv : String → Int) (logs : List RawLog) : List RawLog :=
  logs.foldr (insertDesc tv) []

/-- Model of `deduplicateLogs` from `frontend/src/pages/LogsList.js` lines 71-88:
deduplicate by id keeping the newest instance, then sort newest-first. -/
def deduplicateLogs (tv : String → Int) (logs : List RawLog) : List RawLog :=
  sortDesc tv (dedupByNewest tv logs)

/-- Claim-level predicate: the list is ordered by `timestamp` descending
(newest first), comparing ISO-8601 timestamp strings. -/
def sortedByTimestampDesc (logs : List RawLog) : Prop :=
  logs.Pairwise (fun a b => tsLe b.timestamp a.timestamp = true)

/-- Claim-level predicate for the amended idempotence statement: the
metadata is not a string whose successful `JSON.parse` yields a string or a
falsy value. -/
def metaIdemOk : Option Json → Bool
  | some (.str s) =>
    (match jsonParse s with
     | some v => v.truthy && !v.isStr
     | none => true)
  | _ => true

/-- Claim-level predicate: a well-formed world state — unique ledger keys,
and every stored record's `id` field equal to its key (both are established
by `CreateLog`, which keys the record by its own id and refuses
collisions). -/
def ledgerWf (l : Ledger) : Prop :=
  (l.map Prod.fst).Nodup ∧ ∀ p ∈ l, (Prod.snd p).id = p.1

instance (l : Ledger) : Decidable (ledgerWf l) := by
  unfold ledgerWf
  infer_instance

/-- Fixture: a stored login event. -/
def evLogin : LogEvent :=
  ⟨"LOG1", "alice", "LOGIN", "application", "2024-01-02T00:00:00Z", "login", ""⟩

/-- Fixture: a one-record world state. -/
def ledgerOne : Ledger := [("LOG1", evLogin)]

/-- Fixture: an older event (key `LOGA`, timestamp 2020). -/
def evOld : LogEvent :=
  ⟨"LOGA", "alice", "LOGIN", "application", "2020-01-01T00:00:00Z", "older", ""⟩

/-- Fixture: a newer event (key `LOGB`, timestamp 2021). -/
def evNew : LogEvent :=
  ⟨"LOGB", "alice", "ERROR", "system", "2021-01-01T00:00:00Z", "newer", ""⟩

/-- Fixture: a two-record world state whose key order is the reverse of its
timestamp-descending order. -/
def ledgerTwo : Ledger := [("LOGA", evOld), ("LOGB", evNew)]

/-- Fixture: a raw record whose metadata is the JSON text `"hello"` — a
string that parses to a string. -/
def strHelloLog : RawLog :=
  { id := "LOG7", userId := "u1", action := "LOGIN", resource := "app",
    timestamp := "2024-01-01T00:00:00Z", description := "",
    metadata := some (.str "\"hello\"") }

/-- Fixture: a raw record whose metadata is the JSON text `"a"`. -/
def strALog : RawLog :=
  { id := "LOG8", userId := "u1", action := "LOGIN", resource := "app",
    timestamp := "2024-01-01T00:00:00Z", description := "",
    metadata := some (.str "\"a\"") }

theorem insertDesc_perm (tv : String → Int) (log : RawLog) (l : List RawLog) :
    List.Perm (insertDesc tv log l) (log :: l) := by
  induction l with
  | nil => simp [insertDesc]
  | cons x rest ih =>
    simp only [insertDesc]
    split
    · exact List.Perm.refl _
    · exact List.Perm.trans (List.Perm.cons x ih) (List.Perm.swap log x rest)

theorem sortDesc_perm (tv : String → Int) (logs : List RawLog) :
    List.Perm (sortDesc tv logs) logs := by
  induction logs with
  | nil => exact List.Perm.refl _
  | cons x rest ih =>
    exact List.Perm.trans (insertDesc_perm tv x (sortDesc tv rest)) (List.Perm.cons x ih)

theorem pairwise_insertDesc {tv : String → Int} {log : RawLog} {l : List RawLog}
    (h : l.Pairwise (fun a b => tv b.timestamp ≤ tv a.timestamp)) :
    (insertDesc tv log l).Pairwise (fun a b => tv b.timestamp ≤ tv a.timestamp) := by
  induction l with
  | nil => simp [insertDesc]
  | cons x rest ih =>
    rw [List.pairwise_cons] at h
    simp only [insertDesc]
    split
    · rename_i hlt
      rw [List.pairwise_cons]
      refine ⟨?_, List.pairwise_cons.mpr h⟩
      intro b hb
      rcases List.mem_cons.mp hb with rfl | hb
      · exact le_of_lt hlt
      · exact le_trans (h.1 b hb) (le_of_lt hlt)
    · rename_i hnlt
      rw [List.pairwise_cons]
      refine ⟨?_, ih h.2⟩
      intro b hb
      rcases List.mem_cons.mp ((insertDesc_perm tv log rest).mem_iff.mp hb) with rfl | hb
      · exact le_of_not_lt hnlt
      · exact h.1 b hb

theorem pairwise_sortDesc (tv : String → Int) (logs : List RawLog) :
    (sortDesc tv logs).Pairwise (fun a b => tv b.timestamp ≤ tv a.timestamp) := by
  induction logs with
  | nil => simp [sortDesc]
  | cons x rest ih => exact pairwise_insertDesc ih

theorem objSet_mem {tv : String → Int} {acc : List RawLog} {log x : RawLog}
    (h : x ∈ objSet tv acc log) : x ∈ acc ∨ x = log := by
  induction acc with
  | nil => simpa [objSet] using h
  | cons y rest ih =>
    simp only [objSet] at h
    split at h
    · rcases List.mem_cons.mp h with h1 | h1
      · split at h1
        · exact .inr h1
        · exact .inl (by rw [h1]; exact List.mem_cons_self y rest)
      · exact .inl (List.mem_cons_of_mem y h1)
    · rcases List.mem_cons.mp h with h1 | h1
      · exact .inl (by rw [h1]; exact List.mem_cons_self y rest)
      · rcases ih h1 with h2 | h2
        · exact .inl (List.mem_cons_of_mem y h2)
        · exact .inr h2

theorem objSet_ids (tv : String → Int) (acc : List RawLog) (log : RawLog) :
    (objSet tv acc log).map (fun l => l.id)
      = if log.id ∈ acc.map (fun l => l.id)
        then acc.map (fun l => l.id)
        else acc.map (fun l => l.id) ++ [log.id] := by
  induction acc with
  | nil => simp [objSet]
  | cons y rest ih =>
    simp only [objSet]
    by_cases hid : y.id = log.id
    · rw [if_pos hid]
      have hsame : (if tv y.timestamp < tv log.timestamp then log else y).id = y.id := by
        split
        · exact hid.symm
        · rfl
      rw [List.map_cons, hsame, List.map_cons,
        if_pos (show log.id ∈ y.id :: rest.map (fun l => l.id) from
          List.mem_cons.mpr (.inl hid.symm))]
    · rw [if_neg hid, List.map_cons, List.map_cons, ih]
      by_cases hmem : log.id ∈ rest.map (fun l => l.id)
      · rw [if_pos hmem, if_pos (List.mem_cons_of_mem _ hmem)]
      · rw [if_neg hmem,
          if_neg (by rw [List.mem_cons]; rintro (h1 | h1); exact hid h1.symm; exact hmem h1),
          List.cons_append]

theorem objSet_nodup_ids {tv : String → Int} {acc : List RawLog} {log : RawLog}
    (h : (acc.map (fun l => l.id)).Nodup) :
    ((objSet tv acc log).map (fun l => l.id)).Nodup := by
  rw [objSet_ids]
  split
  · exact h
  · rename_i hmem
    exact List.Nodup.append h (List.nodup_singleton _)
      (by intro a ha hb; rcases List.mem_singleton.mp hb with rfl; exact hmem ha)

theorem objSet_keeps_ge {tv : String → Int} {acc : List RawLog} (log : RawLog) :
    ∀ x ∈ acc, ∃ y ∈ objSet tv acc log, y.id = x.id ∧ tv x.timestamp ≤ tv y.timestamp := by
  induction acc with
  | nil => intro x hx; cases hx
  | cons z rest ih =>
    intro x hx
    simp only [objSet]
    split
    · rename_i hz
      rcases List.mem_cons.mp hx with rfl | hx
      · split
        · rename_i hlt
          exact ⟨log, List.mem_cons_self _ _, hz.symm, le_of_lt hlt⟩
        · exact ⟨x, List.mem_cons_self _ _, rfl, le_refl _⟩
      · exact ⟨x, List.mem_cons_of_mem _ hx, rfl, le_refl _⟩
    · rcases List.mem_cons.mp hx with rfl | hx
      · exact ⟨x, List.mem_cons_self _ _, rfl, le_refl _⟩
      · rcases ih x hx with ⟨y, hy, hyid, hyts⟩
        exact ⟨y, List.mem_cons_of_mem _ hy, hyid, hyts⟩

theorem objSet_adds_ge {tv : String → Int} (acc : List RawLog) (log : RawLog) :
    ∃ y ∈ objSet tv acc log, y.id = log.id ∧ tv log.timestamp ≤ tv y.timestamp := by
  induction acc with
  | nil => exact ⟨log, by simp [objSet], rfl, le_refl _⟩
  | cons z rest ih =>
    simp only [objSet]
    split
    · rename_i hz
      split
      · exact ⟨log, List.mem_cons_self _ _, rfl, le_refl _⟩
      · rename_i hnlt
        exact ⟨z, List.mem_cons_self _ _, hz, le_of_not_lt hnlt⟩
    · rcases ih with ⟨y, hy, hyid, hyts⟩
      exact ⟨y, List.mem_cons_of_mem _ hy, hyid, hyts⟩

theorem foldl_objSet_nodup {tv : String → Int} (logs : List RawLog) :
    ∀ acc : List RawLog, (acc.map (fun l => l.id)).Nodup →
      ((logs.foldl (objSet tv) acc).map (fun l => l.id)).Nodup := by
  induction logs with
  | nil => intro acc h; exact h
  | cons l ls ih => intro acc h; exact ih _ (objSet_nodup_ids h)

theorem foldl_objSet_mem {tv : String → Int} (logs : List RawLog) :
    ∀ (acc : List RawLog) (x : RawLog), x ∈ logs.foldl (objSet tv) acc →
      x ∈ acc ∨ x ∈ logs := by
  induction logs with
  | nil => intro acc x h; exact .inl h
  | cons l ls ih =>
    intro acc x h
    rcases ih _ x h with h1 | h1
    · rcases objSet_mem h1 with h2 | h2
      · exact .inl h2
      · exact .inr (by rw [h2]; exact List.mem_cons_self l ls)
    · exact .inr (List.mem_cons_of_mem l h1)

theorem foldl_objSet_rep {tv : String → Int} (logs : List RawLog) :
    ∀ (acc : List RawLog) (p : RawLog),
      ((∃ x ∈ acc, x.id = p.id ∧ tv p.timestamp ≤ tv x.timestamp) ∨ p ∈ logs) →
      ∃ x ∈ logs.foldl (objSet tv) acc, x.id = p.id ∧ tv p.timestamp ≤ tv x.timestamp := by
  induction logs with
  | nil =>
    intro acc p h
    rcases h with h | h
    · exact h
    · cases h
  | cons l ls ih =>
    intro acc p h
    rcases h with ⟨x, hx, hxid, hxts⟩ | h
    · apply ih _ p
      left
      rcases @objSet_keeps_ge tv acc l x hx with ⟨y, hy, hyid, hyts⟩
      exact ⟨y, hy, hyid.trans hxid, le_trans hxts hyts⟩
    · rcases List.mem_cons.mp h with rfl | h2
      · apply ih _ p
        left
        rcases @objSet_adds_ge tv acc p with ⟨y, hy, hyid, hyts⟩
        exact ⟨y, hy, hyid, hyts⟩
      · exact ih _ p (.inr h2)

theorem length_filter_id_eq_one {logs : List RawLog} {X : String}
    (hnd : (logs.map (fun l => l.id)).Nodup) (hmem : ∃ l ∈ logs, l.id = X) :
    (logs.filter (fun l => l.id == X)).length = 1 := by
  induction logs with
  | nil => rcases hmem with ⟨l, hl, _⟩; cases hl
  | cons a as ih =>
    rw [List.map_cons, List.nodup_cons] at hnd
    by_cases h : a.id = X
    · rw [List.filter_cons_of_pos (by simpa using h)]
      have hnone : as.filter (fun l => l.id == X) = [] := by
        rw [List.filter_eq_nil_iff]
        intro l hl hbeq
        exact hnd.1 (by rw [h, ← beq_iff_eq.mp hbeq]; exact List.mem_map_of_mem _ hl)
      rw [hnone]
      rfl
    · rw [List.filter_cons_of_neg (by simpa using h)]
      apply ih hnd.2
      rcases hmem with ⟨l, hl, hlX⟩
      rcases List.mem_cons.mp hl with rfl | hl2
      · exact absurd hlX h
      · exact ⟨l, hl2, hlX⟩

theorem dedupByNewest_nodup_ids (tv : String → Int) (logs : List RawLog) :
    ((dedupByNewest tv logs).map (fun l => l.id)).Nodup :=
  foldl_objSet_nodup logs [] (by simp)

theorem dedupByNewest_subset (tv : String → Int) (logs : List RawLog) :
    ∀ x ∈ dedupByNewest tv logs, x ∈ logs := by
  intro x hx
  rcases foldl_objSet_mem logs [] x hx with h | h
  · cases h
  · exact h

theorem dedupByNewest_max (tv : String → Int) (logs : List RawLog) :
    ∀ p ∈ logs, ∃ x ∈ dedupByNewest tv logs,
      x.id = p.id ∧ tv p.timestamp ≤ tv x.timestamp :=
  fun p hp => foldl_objSet_rep logs [] p (.inr hp)

theorem deduplicateLogs_perm (tv : String → Int) (logs : List RawLog) :
    List.Perm (deduplicateLogs tv logs) (dedupByNewest tv logs) :=
  sortDesc_perm tv (dedupByNewest tv logs)

theorem deduplicateLogs_nodup_ids (tv : String → Int) (logs : List RawLog) :
    ((deduplicateLogs tv logs).map (fun l => l.id)).Nodup :=
  (((deduplicateLogs_perm tv logs).map (fun l => l.id)).nodup_iff).mpr
    (dedupByNewest_nodup_ids tv logs)

theorem deduplicateLogs_subset (tv : String → Int) (logs : List RawLog) :
    ∀ x ∈ deduplicateLogs tv logs, x ∈ logs :=
  fun x hx =>
    dedupByNewest_subset tv logs x ((deduplicateLogs_perm tv logs).mem_iff.mp hx)

theorem deduplicateLogs_max (tv : String → Int) (logs : List RawLog) :
    ∀ x ∈ deduplicateLogs tv logs, ∀ y ∈ logs, y.id = x.id →
      tv y.timestamp ≤ tv x.timestamp := by
  intro x hx y hy hid
  have hx1 : x ∈ dedupByNewest tv logs := (deduplicateLogs_perm tv logs).mem_iff.mp hx
  rcases dedupByNewest_max tv logs y hy with ⟨z, hz, hzid, hzts⟩
  have hzx : z = x :=
    List.inj_on_of_nodup_map (dedupByNewest_nodup_ids tv logs) hz hx1 (by rw [hzid, hid])
  rw [← hzx]
  exact hzts

theorem deduplicateLogs_id_present (tv : String → Int) (logs : List RawLog) :
    ∀ p ∈ logs, ∃ x ∈ deduplicateLogs tv logs, x.id = p.id := by
  intro p hp
  rcases dedupByNewest_max tv logs p hp with ⟨x, hx, hxid, _⟩
  exact ⟨x, (deduplicateLogs_perm tv logs).mem_iff.mpr hx, hxid⟩

theorem mapSet_keys (m : List (String × RawLog)) (log : RawLog) :
    (mapSet m log).map Prod.fst
      = if log.id ∈ m.map Prod.fst then m.map Prod.fst
        else m.map Prod.fst ++ [log.id] := by
  induction m with
  | nil => simp [mapSet]
  | cons q rest ih =>
    rcases q with ⟨k, v⟩
    simp only [mapSet]
    by_cases hid : k = log.id
    · rw [if_pos hid, List.map_cons, List.map_cons,
        if_pos (show log.id ∈ k :: rest.map Prod.fst from List.mem_cons.mpr (.inl hid.symm))]
    · rw [if_neg hid, List.map_cons, List.map_cons, ih]
      by_cases hmem : log.id ∈ rest.map Prod.fst
      · rw [if_pos hmem, if_pos (List.mem_cons_of_mem _ hmem)]
      · rw [if_neg hmem,
          if_neg (by rw [List.mem_cons]; rintro (h1 | h1); exact hid h1.symm; exact hmem h1),
          List.cons_append]

theorem mapSet_nodup_keys {m : List (String × RawLog)} {log : RawLog}
    (h : (m.map Prod.fst).Nodup) : ((mapSet m log).map Prod.fst).Nodup := by
  rw [mapSet_keys]
  split
  · exact h
  · rename_i hmem
    exact List.Nodup.append h (List.nodup_singleton _)
      (by intro a ha hb; rcases List.mem_singleton.mp hb with rfl; exact hmem ha)

theorem mapSet_values_mem {m : List (String × RawLog)} {log x : RawLog}
    (h : x ∈ (mapSet m log).map Prod.snd) : x ∈ m.map Prod.snd ∨ x = log := by
  induction m with
  | nil => simpa [mapSet] using h
  | cons q rest ih =>
    rcases q with ⟨k, v⟩
    simp only [mapSet] at h
    split at h
    · rw [List.map_cons] at h
      rcases List.mem_cons.mp h with h1 | h1
      · exact .inr h1
      · exact .inl (List.mem_cons_of_mem v h1)
    · rw [List.map_cons] at h
      rcases List.mem_cons.mp h with h1 | h1
      · exact .inl (by rw [h1]; exact List.mem_cons_self v _)
      · rcases ih h1 with h2 | h2
        · exact .inl (List.mem_cons_of_mem v h2)
        · exact .inr h2

theorem mapSet_wf {m : List (String × RawLog)} {log : RawLog}
    (h : ∀ p ∈ m, (Prod.snd p).id = p.1) :
    ∀ p ∈ mapSet m log, (Prod.snd p).id = p.1 := by
  induction m with
  | nil =>
    intro p hp
    rcases List.mem_singleton.mp hp with rfl
    rfl
  | cons q rest ih =>
    rcases q with ⟨k, v⟩
    intro p hp
    simp only [mapSet] at hp
    split at hp
    · rename_i hk
      rcases List.mem_cons.mp hp with rfl | hp2
      · exact hk.symm
      · exact h p (List.mem_cons_of_mem _ hp2)
    · rcases List.mem_cons.mp hp with rfl | hp2
      · exact h _ (List.mem_cons_self _ _)
      · exact ih (fun p hp => h p (List.mem_cons_of_mem _ hp)) p hp2

theorem mapSet_keys_mono {m : List (String × RawLog)} {log : RawLog} {k : String}
    (h : k ∈ m.map Prod.fst) : k ∈ (mapSet m log).map Prod.fst := by
  rw [mapSet_keys]
  split
  · exact h
  · exact List.mem_append_left _ h

theorem mapSet_key_present (m : List (String × RawLog)) (log : RawLog) :
    log.id ∈ (mapSet m log).map Prod.fst := by
  rw [mapSet_keys]
  split
  · assumption
  · exact List.mem_append_right _ (List.mem_singleton.mpr rfl)

theorem foldl_mapSet_nodup_keys (logs : List RawLog) :
    ∀ m : List (String × RawLog), (m.map Prod.fst).Nodup →
      ((logs.foldl mapSet m).map Prod.fst).Nodup := by
  induction logs with
  | nil => intro m h; exact h
  | cons l ls ih => intro m h; exact ih _ (mapSet_nodup_keys h)

theorem foldl_mapSet_wf (logs : List RawLog) :
    ∀ m : List (String × RawLog), (∀ p ∈ m, (Prod.snd p).id = p.1) →
      ∀ p ∈ logs.foldl mapSet m, (Prod.snd p).id = p.1 := by
  induction logs with
  | nil => intro m h; exact h
  | cons l ls ih => intro m h; exact ih _ (mapSet_wf h)

theorem foldl_mapSet_values (logs : List RawLog) :
    ∀ (m : List (String × RawLog)) (x : RawLog),
      x ∈ (logs.foldl mapSet m).map Prod.snd → x ∈ m.map Prod.snd ∨ x ∈ logs := by
  induction logs with
  | nil => intro m x h; exact .inl h
  | cons l ls ih =>
    intro m x h
    rcases ih _ x h with h1 | h1
    · rcases mapSet_values_mem h1 with h2 | h2
      · exact .inl h2
      · exact .inr (by rw [h2]; exact List.mem_cons_self l ls)
    · exact .inr (List.mem_cons_of_mem l h1)

theorem foldl_mapSet_keys_mono (logs : List RawLog) :
    ∀ (m : List (String × RawLog)) (k : String), k ∈ m.map Prod.fst →
      k ∈ (logs.foldl mapSet m).map Prod.fst := by
  induction logs with
  | nil => intro m k h; exact h
  | cons l ls ih => intro m k h; exact ih _ k (mapSet_keys_mono h)

theorem foldl_mapSet_key_present (logs : List RawLog) :
    ∀ (m : List (String × RawLog)) (p : RawLog), p ∈ logs →
      p.id ∈ (logs.foldl mapSet m).map Prod.fst := by
  induction logs with
  | nil => intro m p hp; cases hp
  | cons l ls ih =>
    intro m p hp
    rcases List.mem_cons.mp hp with rfl | hp2
    · exact foldl_mapSet_keys_mono ls _ p.id (mapSet_key_present m p)
    · exact ih _ p hp2

theorem assoc_ids_eq_keys {m : List (String × RawLog)}
    (h : ∀ p ∈ m, (Prod.snd p).id = p.1) :
    (m.map Prod.snd).map (fun l => l.id) = m.map Prod.fst := by
  induction m with
  | nil => rfl
  | cons q rest ih =>
    simp only [List.map_cons]
    rw [h q (List.mem_cons_self _ _), ih (fun p hp => h p (List.mem_cons_of_mem _ hp))]

theorem mapDedup_nodup_ids (logs : List RawLog) :
    ((mapDedup logs).map (fun l => l.id)).Nodup := by
  unfold mapDedup
  rw [assoc_ids_eq_keys (foldl_mapSet_wf logs [] (by intro p hp; cases hp))]
  exact foldl_mapSet_nodup_keys logs [] (by simp)

theorem mapDedup_subset (logs : List RawLog) : ∀ x ∈ mapDedup logs, x ∈ logs := by
  intro x hx
  rcases foldl_mapSet_values logs [] x hx with h | h
  · cases h
  · exact h

theorem mapDedup_id_present (logs : List RawLog) :
    ∀ p ∈ logs, ∃ x ∈ mapDedup logs, x.id = p.id := by
  intro p hp
  have hk : p.id ∈ (logs.foldl mapSet []).map Prod.fst :=
    foldl_mapSet_key_present logs [] p hp
  rw [← assoc_ids_eq_keys (foldl_mapSet_wf logs [] (by intro q hq; cases hq))] at hk
  rcases List.mem_map.mp hk with ⟨x, hx, hxid⟩
  exact ⟨x, hx, hxid⟩

theorem mapSet_of_not_mem {m : List (String × RawLog)} {log : RawLog}
    (h : log.id ∉ m.map Prod.fst) : mapSet m log = m ++ [(log.id, log)] := by
  induction m with
  | nil => rfl
  | cons q rest ih =>
    rcases q with ⟨k, v⟩
    rw [List.map_cons, List.mem_cons] at h
    push_neg at h
    simp only [mapSet]
    rw [if_neg (fun hk => h.1 hk.symm), ih h.2, List.cons_append]

theorem foldl_mapSet_of_nodup (logs : List RawLog) :
    ∀ m : List (String × RawLog),
      (m.map Prod.fst ++ logs.map (fun l => l.id)).Nodup →
      logs.foldl mapSet m = m ++ logs.map (fun l => (l.id, l)) := by
  induction logs with
  | nil => intro m _; simp
  | cons l ls ih =>
    intro m h
    have hnot : l.id ∉ m.map Prod.fst := by
      intro hmem
      rcases List.nodup_append.mp h with ⟨_, _, hdisj⟩
      exact hdisj hmem (by rw [List.map_cons]; exact List.mem_cons_self _ _)
    have h1 : ((m ++ [(l.id, l)]).map Prod.fst ++ ls.map (fun l => l.id)).Nodup := by
      rw [List.map_append, List.append_assoc]
      simpa [List.append_assoc] using h
    calc (l :: ls).foldl mapSet m = ls.foldl mapSet (mapSet m l) := rfl
      _ = ls.foldl mapSet (m ++ [(l.id, l)]) := by rw [mapSet_of_not_mem hnot]
      _ = (m ++ [(l.id, l)]) ++ ls.map (fun l => (l.id, l)) := ih _ h1
      _ = m ++ (l :: ls).map (fun l => (l.id, l)) := by
          rw [List.append_assoc, List.map_cons, List.singleton_append]

theorem mapDedup_eq_self {logs : List RawLog}
    (h : (logs.map (fun l => l.id)).Nodup) : mapDedup logs = logs := by
  unfold mapDedup
  rw [foldl_mapSet_of_nodup logs [] (by simpa using h), List.nil_append,
    List.map_map, show (Prod.snd ∘ fun l : RawLog => (l.id, l)) = id from rfl,
    List.map_id]

theorem insertByKey_perm (p : String × LogEvent) (l : List (String × LogEvent)) :
    List.Perm (insertByKey p l) (p :: l) := by
  induction l with
  | nil => simp [insertByKey]
  | cons q rest ih =>
    simp only [insertByKey]
    split
    · exact List.Perm.refl _
    · exact List.Perm.trans (List.Perm.cons q ih) (List.Perm.swap p q rest)

theorem sortByKey_perm (l : Ledger) : List.Perm (sortByKey l) l := by
  induction l with
  | nil => exact List.Perm.refl _
  | cons p rest ih =>
    exact List.Perm.trans (insertByKey_perm p (sortByKey rest)) (List.Perm.cons p ih)

theorem ledgerEvents_ids_nodup {L : Ledger} (hwf : ledgerWf L) :
    ((ledgerEvents L).map (fun e => e.id)).Nodup := by
  unfold ledgerEvents
  rw [List.map_map]
  have hcongr : List.map ((fun e => e.id) ∘ Prod.snd) (sortByKey L)
      = List.map Prod.fst (sortByKey L) :=
    List.map_congr_left (fun p hp => hwf.2 p ((sortByKey_perm L).mem_iff.mp hp))
  rw [hcongr]
  exact (((sortByKey_perm L).map Prod.fst).nodup_iff).mpr hwf.1

theorem normUser_ids (L : Ledger) (u : String) :
    ((((getLogsByUser L u).map rawOfEvent).map processLogMetadata).map (fun l => l.id))
      = (getLogsByUser L u).map (fun e => e.id) := by
  rw [List.map_map, List.map_map]
  exact List.map_congr_left (fun e _ => rfl)

theorem normUser_mem {L : Ledger} {u : String} {x : RawLog}
    (hx : x ∈ ((getLogsByUser L u).map rawOfEvent).map processLogMetadata) :
    ∃ e ∈ ledgerEvents L, e.userId = u ∧ x.id = e.id := by
  rcases List.mem_map.mp hx with ⟨y, hy, rfl⟩
  rcases List.mem_map.mp hy with ⟨e, he, rfl⟩
  rcases List.mem_filter.mp he with ⟨hmem, hbeq⟩
  exact ⟨e, hmem, beq_iff_eq.mp hbeq, rfl⟩

theorem getLogsByUser_ids_nodup {L : Ledger} (hwf : ledgerWf L) (u : String) :
    ((getLogsByUser L u).map (fun e => e.id)).Nodup :=
  (ledgerEvents_ids_nodup hwf).sublist ((List.filter_sublist _).map _)

theorem sweepCombined_aux {L : Ledger} (hwf : ledgerWf L) (users : List String) :
    ∀ acc : List RawLog,
      users.Nodup →
      (acc.map (fun l => l.id)).Nodup →
      (∀ x ∈ acc, ∃ e ∈ ledgerEvents L, x.id = e.id ∧ e.userId ∉ users) →
      ((users.foldl
          (fun a u => a ++ ((getLogsByUser L u).map rawOfEvent).map processLogMetadata)
          acc).map (fun l => l.id)).Nodup := by
  induction users with
  | nil => intro acc _ hacc _; exact hacc
  | cons u us ih =>
    intro acc hnd hacc hinv
    rw [List.nodup_cons] at hnd
    apply ih _ hnd.2
    · rw [List.map_append]
      apply List.Nodup.append hacc
      · rw [normUser_ids]
        exact getLogsByUser_ids_nodup hwf u
      · intro k hk1 hk2
        rcases List.mem_map.mp hk1 with ⟨x, hx, rfl⟩
        rcases hinv x hx with ⟨e1, he1, hid1, hu1⟩
        rw [normUser_ids] at hk2
        rcases List.mem_map.mp hk2 with ⟨e2, he2, hid2⟩
        rcases List.mem_filter.mp he2 with ⟨hmem2, hbeq2⟩
        have he12 : e1 = e2 :=
          List.inj_on_of_nodup_map (ledgerEvents_ids_nodup hwf) he1 hmem2
            (by rw [← hid1, hid2])
        apply hu1
        rw [he12, beq_iff_eq.mp hbeq2]
        exact List.mem_cons_self u us
    · intro x hx
      rcases List.mem_append.mp hx with hx1 | hx1
      · rcases hinv x hx1 with ⟨e, he, hid, hu⟩
        exact ⟨e, he, hid, fun hmem => hu (List.mem_cons_of_mem _ hmem)⟩
      · rcases normUser_mem hx1 with ⟨e, he, huser, hid⟩
        exact ⟨e, he, hid, by rw [huser]; exact hnd.1⟩

theorem sweepCombined_nodup_ids {L : Ledger} (hwf : ledgerWf L) {users : List String}
    (hnd : users.Nodup) :
    ((sweepCombined L users).map (fun l => l.id)).Nodup :=
  sweepCombined_aux hwf users [] hnd (by simp) (by intro x hx; cases hx)

/-- Fixture: a record with id `X` as delivered by a first source. -/
def dupOld : RawLog :=
  { id := "X", userId := "u1", action := "LOGIN", resource := "app",
    timestamp := "2020-01-01T00:00:00Z", description := "from source one",
    metadata := some (.obj []) }

/-- Fixture: a record with the same id `X` as delivered by a second source,
with a newer timestamp. -/
def dupNew : RawLog :=
  { id := "X", userId := "u1", action := "LOGIN", resource := "app",
    timestamp := "2021-01-01T00:00:00Z", description := "from source two",
    metadata := some (.obj []) }

/-- Fixture: a concrete `new Date(...)` time-value function distinguishing
the two fixture timestamps. -/
def tvWit : String → Int := fun s => if s = "2021-01-01T00:00:00Z" then 1 else 0

/-- C1 (counterexample): `ListByAction` on an action no record carries does
not return an empty list — the chaincode's empty payload makes the route
throw into its catch-all, which answers 500, contradicting the claim that a
store-level miss never causes a bulk call to fail. -/
theorem listByAction_miss_fails_not_empty :
    routeGetLogsByAction (.ok (getLogsByAction ledgerOne "NO_SUCH_ACTION"))
      = .fail 500 "Failed to get logs by action" ∧
    routeGetLogsByAction (.ok (getLogsByAction ledgerOne "NO_SUCH_ACTION")) ≠ .ok [] := by
  decide

/-- C1 (amended): only `ListAll`'s sweep fallback downgrades store-level
errors — whenever the full enumeration throws, the sweep answers 200 with
some (possibly empty, possibly partial) record list, and 200 with `[]`
when user discovery finds nobody. Every per-category route — `ListByUser`,
`ListByAction`, `ListByResource`, and the time-range handler — surfaces a
thrown store call and an empty-match miss alike as a 500 failure; in
particular `ListByAction` of an unused action fails rather than returning
the empty list. -/
theorem bulk_error_downgrade_only_in_listall :
    (∀ (L : Ledger) (a : String), getLogsByAction L a = [] →
      routeGetLogsByAction (.ok (getLogsByAction L a))
        = .fail 500 "Failed to get logs by action") ∧
    (∀ (L : Ledger) (u : String), getLogsByUser L u = [] →
      routeGetLogsByUser (.ok (getLogsByUser L u))
        = .fail 500 "Failed to get logs by user") ∧
    (∀ (L : Ledger) (r : String), getLogsByResource L r = [] →
      routeGetLogsByResource (.ok (getLogsByResource L r))
        = .fail 500 "Failed to get logs by resource") ∧
    (∀ (L : Ledger) (s e : String), s ≠ "" → e ≠ "" → getLogsByTimeRange L s e = [] →
      routeGetLogsByTimerange L (some s) (some e)
        = .fail 500 "Failed to get logs by time range") ∧
    (routeGetLogsByAction (.error ()) = .fail 500 "Failed to get logs by action" ∧
      routeGetLogsByUser (.error ()) = .fail 500 "Failed to get logs by user" ∧
      routeGetLogsByResource (.error ()) = .fail 500 "Failed to get logs by resource") ∧
    (∀ (L : Ledger) (nowTs : String) (reqU : Option String),
      discoveredUsers L nowTs reqU = [] → routeGetAll true L reqU nowTs = .ok []) ∧
    (∀ (L : Ledger) (nowTs : String) (reqU : Option String),
      ∃ logs : List RawLog, routeGetAll true L reqU nowTs = .ok logs) := by
  refine ⟨?_, ?_, ?_, ?_, ⟨rfl, rfl, rfl⟩, ?_, ?_⟩
  · intro L a h
    simp [routeGetLogsByAction, chainListResult, h]
  · intro L u h
    simp [routeGetLogsByUser, chainListResult, h]
  · intro L r h
    simp [routeGetLogsByResource, chainListResult, h]
  · intro L s e hs he h
    simp only [routeGetLogsByTimerange]
    rw [if_neg (by rintro (rfl | rfl); exact hs rfl; exact he rfl)]
    simp [chainListResult, h]
  · intro L nowTs reqU h
    simp [routeGetAll, h]
  · intro L nowTs reqU
    unfold routeGetAll
    rw [if_pos rfl]
    by_cases h : (discoveredUsers L nowTs reqU).isEmpty = true
    · rw [if_pos h]
      exact ⟨[], rfl⟩
    · rw [if_neg h]
      exact ⟨_, rfl⟩

/-- C1 (witness): the amended statement at concrete inputs — an unused
action, user, resource and time range over a populated ledger, and the
sweep on an empty and a populated ledger. -/
theorem bulk_error_downgrade_only_in_listall_witness :
    routeGetLogsByAction (.ok (getLogsByAction ledgerTwo "VISIT"))
      = .fail 500 "Failed to get logs by action" ∧
    routeGetLogsByUser (.ok (getLogsByUser ledgerTwo "bob"))
      = .fail 500 "Failed to get logs by user" ∧
    routeGetLogsByResource (.ok (getLogsByResource ledgerTwo "document"))
      = .fail 500 "Failed to get logs by resource" ∧
    routeGetLogsByTimerange ledgerTwo (some "2022-01-01T00:00:00Z")
        (some "2023-01-01T00:00:00Z")
      = .fail 500 "Failed to get logs by time range" ∧
    routeGetAll true [] none "2024-01-01T00:00:00.000Z" = .ok [] ∧
    (∃ logs : List RawLog,
      routeGetAll true ledgerTwo none "2024-01-01T00:00:00.000Z" = .ok logs) :=
  ⟨bulk_error_downgrade_only_in_listall.1 ledgerTwo "VISIT" (by decide),
   bulk_error_downgrade_only_in_listall.2.1 ledgerTwo "bob" (by decide),
   bulk_error_downgrade_only_in_listall.2.2.1 ledgerTwo "document" (by decide),
   bulk_error_downgrade_only_in_listall.2.2.2.1 ledgerTwo "2022-01-01T00:00:00Z"
     "2023-01-01T00:00:00Z" (by decide) (by decide) (by decide),
   bulk_error_downgrade_only_in_listall.2.2.2.2.2.1 [] "2024-01-01T00:00:00.000Z" none
     (by decide),
   bulk_error_downgrade_only_in_listall.2.2.2.2.2.2 ledgerTwo "2024-01-01T00:00:00.000Z"
     none⟩


/-- C2 (counterexample): with the secondary index missing every query shape
(the routes never consult it at all), `ListByUser("bob")` over a ledger with
no matching record does not return the ledger's (empty) matching record
list: the route fails with 500. -/
theorem listByUser_empty_match_fails :
    getLogsByUser ledgerOne "bob" = [] ∧
    routeGetLogsByUser (.ok (getLogsByUser ledgerOne "bob"))
      = .fail 500 "Failed to get logs by user" ∧
    routeGetLogsByUser (.ok (getLogsByUser ledgerOne "bob")) ≠ .ok [] := by
  decide

/-- C2 (amended): whenever at least one record matches, `ListByUser`,
`ListByAction` and the (shadowed) time-range handler return exactly the
ledger's matching records, normalized — the index cannot affect these
routes since they query the ledger directly; an empty match set instead
produces a 500 failure. -/
theorem lists_return_ledger_matches_when_nonempty (L : Ledger) (u a s e : String) :
    (getLogsByUser L u ≠ [] →
      routeGetLogsByUser (.ok (getLogsByUser L u))
        = .ok ((((ledgerEvents L).filter (fun ev => ev.userId == u)).map rawOfEvent).map
            processLogMetadata)) ∧
    (getLogsByAction L a ≠ [] →
      routeGetLogsByAction (.ok (getLogsByAction L a))
        = .ok ((((ledgerEvents L).filter (fun ev => ev.action == a)).map rawOfEvent).map
            processLogMetadata)) ∧
    (s ≠ "" → e ≠ "" → getLogsByTimeRange L s e ≠ [] →
      routeGetLogsByTimerange L (some s) (some e)
        = .ok ((((ledgerEvents L).filter
            (fun ev => tsLe s ev.timestamp && tsLe ev.timestamp e)).map rawOfEvent).map
            processLogMetadata)) := by
  refine ⟨?_, ?_, ?_⟩
  · intro h
    have hne : (getLogsByUser L u).isEmpty = false := by
      cases hl : getLogsByUser L u with
      | nil => exact absurd hl h
      | cons x xs => rfl
    simp only [routeGetLogsByUser, chainListResult]
    rw [hne, if_neg Bool.false_ne_true]
    rfl
  · intro h
    have hne : (getLogsByAction L a).isEmpty = false := by
      cases hl : getLogsByAction L a with
      | nil => exact absurd hl h
      | cons x xs => rfl
    simp only [routeGetLogsByAction, chainListResult]
    rw [hne, if_neg Bool.false_ne_true]
    rfl
  · intro hs he h
    have hne : (getLogsByTimeRange L s e).isEmpty = false := by
      cases hl : getLogsByTimeRange L s e with
      | nil => exact absurd hl h
      | cons x xs => rfl
    simp only [routeGetLogsByTimerange]
    rw [if_neg (by rintro (rfl | rfl); exact hs rfl; exact he rfl)]
    simp only [chainListResult]
    rw [hne, if_neg Bool.false_ne_true]
    rfl

/-- C2 (witness): the amended statement at concrete inputs. -/
theorem lists_return_ledger_matches_when_nonempty_witness :
    routeGetLogsByUser (.ok (getLogsByUser ledgerOne "alice"))
      = .ok ((((ledgerEvents ledgerOne).filter (fun ev => ev.userId == "alice")).map
          rawOfEvent).map processLogMetadata) ∧
    routeGetLogsByAction (.ok (getLogsByAction ledgerOne "LOGIN"))
      = .ok ((((ledgerEvents ledgerOne).filter (fun ev => ev.action == "LOGIN")).map
          rawOfEvent).map processLogMetadata) ∧
    routeGetLogsByTimerange ledgerOne (some "2024-01-01T00:00:00Z")
        (some "2024-12-31T00:00:00Z")
      = .ok ((((ledgerEvents ledgerOne).filter
          (fun ev => tsLe "2024-01-01T00:00:00Z" ev.timestamp &&
            tsLe ev.timestamp "2024-12-31T00:00:00Z")).map rawOfEvent).map
          processLogMetadata) :=
  ⟨(lists_return_ledger_matches_when_nonempty ledgerOne "alice" "LOGIN"
      "2024-01-01T00:00:00Z" "2024-12-31T00:00:00Z").1 (by decide),
   (lists_return_ledger_matches_when_nonempty ledgerOne "alice" "LOGIN"
      "2024-01-01T00:00:00Z" "2024-12-31T00:00:00Z").2.1 (by decide),
   (lists_return_ledger_matches_when_nonempty ledgerOne "alice" "LOGIN"
      "2024-01-01T00:00:00Z" "2024-12-31T00:00:00Z").2.2 (by decide) (by decide) (by decide)⟩

/-- C3 (counterexample): the primary `ListAll` path returns the records in
ledger key order, not sorted by timestamp descending — a ledger whose key
order is oldest-first comes back oldest-first. -/
theorem listall_primary_not_sorted :
    routeGetAll false ledgerTwo none "2024-01-01T00:00:00.000Z"
      = .ok [processLogMetadataAll (rawOfEvent evOld),
             processLogMetadataAll (rawOfEvent evNew)] ∧
    ¬ sortedByTimestampDesc
        [processLogMetadataAll (rawOfEvent evOld),
         processLogMetadataAll (rawOfEvent evNew)] := by
  constructor
  · decide
  · intro h
    have h1 := (List.pairwise_cons.mp h).1 _ (List.mem_cons_self _ _)
    exact absurd h1 (by decide)

/-- C3 (amended): the backend `ListAll` returns enumeration/merge order;
the timestamp-descending default ordering is implemented by the client
aggregator — `deduplicateLogs` always returns its records sorted newest
first. -/
theorem client_dedup_sorts_newest_first (tv : String → Int) (logs : List RawLog) :
    (deduplicateLogs tv logs).Pairwise (fun a b => tv b.timestamp ≤ tv a.timestamp) :=
  pairwise_sortDesc tv (dedupByNewest tv logs)

/-- C4 (code evaluation): a stored metadata string whose JSON parse
succeeds with a non-object is returned as that non-object by the read-path
normalizers — `processLogMetadata` returns a bare string, and the CouchDB
coercion returns a bare number — contradicting both the claim and the
functions' own doc comments ("Ensures metadata is a proper object, not a
string"). -/
theorem read_path_metadata_can_be_non_object :
    (processLogMetadata strHelloLog).metadata = some (.str "hello") ∧
    ((processLogMetadata strHelloLog).metadata.map Json.isObj) = some false ∧
    couchProcessMetadata (some (.str "5")) = .num 5 ∧
    (couchProcessMetadata (some (.str "5"))).isObj = false := by
  decide

/-- C5 (counterexample): normalization is not idempotent — metadata `"a"`
(a JSON-encoded string) normalizes to the bare string `a`, and a second
normalization turns that into `{}` because `a` no longer parses. -/
theorem normalize_not_idempotent :
    processLogMetadata (processLogMetadata strALog) ≠ processLogMetadata strALog ∧
    (processLogMetadata strALog).metadata = some (.str "a") ∧
    (processLogMetadata (processLogMetadata strALog)).metadata = some (.obj []) := by
  decide

theorem processMetadataValue_keeps_truthy_nonstr {v : Json}
    (ht : v.truthy = true) (hs : v.isStr = false) :
    processMetadataValue (some v) = v := by
  unfold processMetadataValue
  rw [if_neg (by simp [rawTruthy, ht])]
  cases v with
  | str s => exact absurd hs (by simp [Json.isStr])
  | null => rfl
  | bool b => rfl
  | num n => rfl
  | arr xs => rfl
  | obj fs => rfl

theorem processMetadataValue_stable {m : Option Json} (h : metaIdemOk m = true) :
    processMetadataValue (some (processMetadataValue m)) = processMetadataValue m := by
  have hobj : processMetadataValue (some (.obj [])) = .obj [] :=
    processMetadataValue_keeps_truthy_nonstr rfl rfl
  rcases m with _ | v
  · rw [show processMetadataValue none = Json.obj [] from rfl, hobj]
  · by_cases ht : v.truthy = true
    · cases v with
      | str s =>
        have hval : processMetadataValue (some (.str s))
            = (match jsonParse s with | some w => w | none => Json.obj []) := by
          unfold processMetadataValue
          rw [if_neg (by simp [rawTruthy, ht])]
        rcases hp : jsonParse s with _ | w
        · rw [hval, hp, hobj]
        · rw [hval, hp]
          have hw : (w.truthy && !w.isStr) = true := by
            have h2 := h
            simp only [metaIdemOk, hp] at h2
            exact h2
          rw [Bool.and_eq_true] at hw
          refine processMetadataValue_keeps_truthy_nonstr hw.1 ?_
          simpa using hw.2
      | null => exact absurd ht (by simp [Json.truthy])
      | bool b =>
        have hb : b = true := by simpa [Json.truthy] using ht
        subst hb
        rw [processMetadataValue_keeps_truthy_nonstr ht rfl,
          processMetadataValue_keeps_truthy_nonstr ht rfl]
      | num n =>
        rw [processMetadataValue_keeps_truthy_nonstr ht rfl,
          processMetadataValue_keeps_truthy_nonstr ht rfl]
      | arr xs =>
        rw [processMetadataValue_keeps_truthy_nonstr ht rfl,
          processMetadataValue_keeps_truthy_nonstr ht rfl]
      | obj fs =>
        rw [processMetadataValue_keeps_truthy_nonstr ht rfl,
          processMetadataValue_keeps_truthy_nonstr ht rfl]
    · rw [Bool.not_eq_true] at ht
      have hval : processMetadataValue (some v) = Json.obj [] := by
        cases v with
        | str s =>
          have hse : s = "" := by simpa [Json.truthy] using ht
          subst hse
          rfl
        | null => rfl
        | bool b =>
          have hb : b = false := by simpa [Json.truthy] using ht
          subst hb
          rfl
        | num n =>
          have hn : n = 0 := by simpa [Json.truthy] using ht
          subst hn
          rfl
        | arr xs => exact absurd ht (by simp [Json.truthy])
        | obj fs => exact absurd ht (by simp [Json.truthy])
      rw [hval, hobj]

/-- C5 (amended): normalization is idempotent for every raw record except
those whose metadata is a string that JSON-parses to a string or to a falsy
value (there the second pass re-parses or blanks the result). -/
theorem normalize_idempotent_on_stable_metadata (log : RawLog)
    (h : metaIdemOk log.metadata = true) :
    processLogMetadata (processLogMetadata log) = processLogMetadata log := by
  unfold processLogMetadata
  simp only [processMetadataValue_stable h]

/-- C5 (witness): the amended statement at a concrete record. -/
theorem normalize_idempotent_on_stable_metadata_witness :
    processLogMetadata (processLogMetadata dupOld) = processLogMetadata dupOld :=
  normalize_idempotent_on_stable_metadata dupOld (by decide)

/-- C6: in every merged result list each id occurs exactly once — the
frontend `deduplicateLogs` keeps, per id, an input instance whose timestamp
is maximal (the most recent write), and the backend sweep's `Map` dedup
keeps one instance per id; under the ledger's key-uniqueness invariants the
sweep union already carries pairwise-distinct ids, so the single retained
instance is the record of that id's unique accepted write. -/
theorem merged_results_unique_by_id :
    (∀ (tv : String → Int) (logs : List RawLog) (X : String),
      (∃ l ∈ logs, l.id = X) →
      ((deduplicateLogs tv logs).filter (fun l => l.id == X)).length = 1) ∧
    (∀ (tv : String → Int) (logs : List RawLog), ∀ x ∈ deduplicateLogs tv logs,
      x ∈ logs ∧ ∀ y ∈ logs, y.id = x.id → tv y.timestamp ≤ tv x.timestamp) ∧
    (∀ (logs : List RawLog) (X : String), (∃ l ∈ logs, l.id = X) →
      ((mapDedup logs).filter (fun l => l.id == X)).length = 1) ∧
    (∀ logs : List RawLog, ∀ x ∈ mapDedup logs, x ∈ logs) ∧
    (∀ (L : Ledger) (users : List String), ledgerWf L → users.Nodup →
      ((sweepCombined L users).map (fun l => l.id)).Nodup ∧
      mapDedup (sweepCombined L users) = sweepCombined L users) := by
  refine ⟨?_, ?_, ?_, ?_, ?_⟩
  · intro tv logs X hX
    apply length_filter_id_eq_one (deduplicateLogs_nodup_ids tv logs)
    rcases hX with ⟨l, hl, hlX⟩
    rcases deduplicateLogs_id_present tv logs l hl with ⟨x, hx, hxid⟩
    exact ⟨x, hx, by rw [hxid, hlX]⟩
  · intro tv logs x hx
    exact ⟨deduplicateLogs_subset tv logs x hx, deduplicateLogs_max tv logs x hx⟩
  · intro logs X hX
    apply length_filter_id_eq_one (mapDedup_nodup_ids logs)
    rcases hX with ⟨l, hl, hlX⟩
    rcases mapDedup_id_present logs l hl with ⟨x, hx, hxid⟩
    exact ⟨x, hx, by rw [hxid, hlX]⟩
  · exact mapDedup_subset
  · intro L users hwf hnd
    exact ⟨sweepCombined_nodup_ids hwf hnd,
      mapDedup_eq_self (sweepCombined_nodup_ids hwf hnd)⟩

/-- C6 (witness): the statement applied to two sources holding the same id
`X`, and to a concrete sweep. -/
theorem merged_results_unique_by_id_witness :
    ((deduplicateLogs tvWit [dupOld, dupNew]).filter (fun l => l.id == "X")).length = 1 ∧
    (dupNew ∈ ([dupOld, dupNew] : List RawLog) ∧
      ∀ y ∈ ([dupOld, dupNew] : List RawLog), y.id = dupNew.id →
        tvWit y.timestamp ≤ tvWit dupNew.timestamp) ∧
    ((mapDedup [dupOld, dupNew]).filter (fun l => l.id == "X")).length = 1 ∧
    dupNew ∈ ([dupOld, dupNew] : List RawLog) ∧
    (((sweepCombined ledgerTwo ["alice"]).map (fun l => l.id)).Nodup ∧
      mapDedup (sweepCombined ledgerTwo ["alice"]) = sweepCombined ledgerTwo ["alice"]) :=
  ⟨merged_results_unique_by_id.1 tvWit [dupOld, dupNew] "X" ⟨dupOld, by decide, by decide⟩,
   merged_results_unique_by_id.2.1 tvWit [dupOld, dupNew] dupNew (by decide),
   merged_results_unique_by_id.2.2.1 [dupOld, dupNew] "X" ⟨dupOld, by decide, by decide⟩,
   merged_results_unique_by_id.2.2.2.1 [dupOld, dupNew] dupNew (by decide),
   merged_results_unique_by_id.2.2.2.2 ledgerTwo ["alice"] (by decide) (by decide)⟩

/-- C7: `CreateLog` fails on a colliding id — returning an error and hence
leaving the world state untouched — and on a fresh id persists the record
verbatim under that id, with metadata stored exactly as provided and every
other key unaffected. -/
theorem createLog_rejects_collisions_persists_verbatim
    (L : Ledger) (id u a r d m now : String) :
    (logExists L id = true →
      createLog L id u a r d m now = .error ("the log " ++ id ++ " already exists")) ∧
    (logExists L id = false →
      createLog L id u a r d m now = .ok ((id, ⟨id, u, a, r, now, d, m⟩) :: L) ∧
      getState ((id, (⟨id, u, a, r, now, d, m⟩ : LogEvent)) :: L) id
        = some ⟨id, u, a, r, now, d, m⟩ ∧
      ∀ j, j ≠ id →
        getState ((id, (⟨id, u, a, r, now, d, m⟩ : LogEvent)) :: L) j = getState L j) := by
  constructor
  · intro h
    unfold createLog
    rw [if_pos h]
  · intro h
    refine ⟨by unfold createLog; rw [h]; rfl, ?_, ?_⟩
    · unfold getState
      rw [List.find?_cons_of_pos _ (by simp)]
      rfl
    · intro j hj
      unfold getState
      rw [List.find?_cons_of_neg _ (by simp; exact fun hh => hj hh.symm)]

/-- C7 (witness): both branches at concrete inputs. -/
theorem createLog_rejects_collisions_persists_verbatim_witness :
    createLog ledgerOne "LOG1" "u2" "CREATE" "doc" "d" "\x7b\x7d" "2024-03-01T00:00:00Z"
      = .error ("the log " ++ "LOG1" ++ " already exists") ∧
    createLog ([] : Ledger) "LOG2" "bob" "CREATE" "doc" "d" "\x7b\x7d" "2024-03-01T00:00:00Z"
      = .ok [("LOG2", ⟨"LOG2", "bob", "CREATE", "doc", "2024-03-01T00:00:00Z", "d", "\x7b\x7d"⟩)] :=
  ⟨(createLog_rejects_collisions_persists_verbatim ledgerOne "LOG1" "u2" "CREATE" "doc" "d"
      "\x7b\x7d" "2024-03-01T00:00:00Z").1 (by decide),
   ((createLog_rejects_collisions_persists_verbatim [] "LOG2" "bob" "CREATE" "doc" "d"
      "\x7b\x7d" "2024-03-01T00:00:00Z").2 (by decide)).1⟩

/-- C9 (code evaluation): `GET /api/logs/timerange` with missing bounds is
matched by the earlier-registered `'/:id'` route as `id = "timerange"`, so
the request reaches `ReadLog` — a store query — and fails with the 500
"Failed to get log" instead of the 400 validation answer the (unreachable)
time-range handler would give before any store call. -/
theorem timerange_shadowed_by_id_route :
    matchLogsGetRoute ["timerange"] = some (.byId "timerange") ∧
    handleLogsGet ([] : Ledger) false none "2024-01-01T00:00:00.000Z" ["timerange"] none none
      = .fail 500 "Failed to get log" ∧
    routeGetLogsByTimerange ([] : Ledger) none none
      = .fail 400 "Both startTime and endTime are required" := by
  decide

/-- C10: the logging middleware submits `CreateLog` with seven arguments
while the contract declares six parameters, so every automatic
`API_REQUEST` submission is rejected, the rejection is swallowed, and the
world state — in particular the set of `API_REQUEST` records — is
unchanged. -/
theorem middleware_api_request_never_persisted (L : Ledger) (now : String) (r : ApiRequest) :
    (middlewareCreateLogArgs r).length = 7 ∧
    invokeCreateLog L now (middlewareCreateLogArgs r) = .error "incorrect number of params" ∧
    middlewareStep L now r = L ∧
    getLogsByAction (middlewareStep L now r) "API_REQUEST"
      = getLogsByAction L "API_REQUEST" := by
  refine ⟨rfl, rfl, rfl, rfl⟩

theorem metadataStringOf_nonstr_eq {v : Json} (ht : v.truthy = true) (hs : v.isStr = false) :
    metadataStringOf (some v)
      = if (jsonParse (stringifyJson v)).isSome then some (stringifyJson v) else none := by
  cases v with
  | str s => exact absurd hs (by simp [Json.isStr])
  | null => exact absurd ht (by simp [Json.truthy])
  | bool b =>
    simp only [metadataStringOf]
    rw [if_neg (show ¬((Json.bool b).truthy = false) from by rw [ht]; simp)]
  | num n =>
    simp only [metadataStringOf]
    rw [if_neg (show ¬((Json.num n).truthy = false) from by rw [ht]; simp)]
  | arr xs =>
    simp only [metadataStringOf]
    rw [if_neg (show ¬((Json.arr xs).truthy = false) from by rw [ht]; simp)]
  | obj fs =>
    simp only [metadataStringOf]
    rw [if_neg (show ¬((Json.obj fs).truthy = false) from by rw [ht]; simp)]

theorem metadataString_roundtrip {m : Option Json} {ms : String}
    (hrt : ∀ v : Json, m = some v → jsonParse (stringifyJson v) = some v)
    (hms : metadataStringOf m = some ms) :
    ms ≠ "" ∧ processMetadataValue (some (.str ms)) = processMetadataValue m := by
  rcases m with _ | v
  · have hms2 : ms = "\x7b\x7d" := (Option.some.inj hms).symm
    subst hms2
    exact ⟨by decide, by decide⟩
  · have hrtv := hrt v rfl
    by_cases ht : v.truthy = true
    · by_cases hs : v.isStr = true
      · rcases v with _ | _ | _ | s | _ | _ <;> simp [Json.isStr] at hs
        have hmss : (jsonParse s).isSome = true ∧ ms = s := by
          revert hms
          simp only [metadataStringOf]
          rw [if_neg (show ¬((Json.str s).truthy = false) from by rw [ht]; simp)]
          show (if (jsonParse s).isSome = true then some s else none) = some ms →
            (jsonParse s).isSome = true ∧ ms = s
          by_cases hp : (jsonParse s).isSome = true
          · rw [if_pos hp]
            intro hh
            exact ⟨hp, (Option.some.inj hh).symm⟩
          · rw [if_neg hp]
            intro hh
            cases hh
        obtain ⟨hp, rfl⟩ := hmss
        exact ⟨by simpa [Json.truthy] using ht, rfl⟩
      · rw [Bool.not_eq_true] at hs
        have hmseq : ms = stringifyJson v := by
          rw [metadataStringOf_nonstr_eq ht hs, hrtv] at hms
          simpa using hms.symm
        have hneq : stringifyJson v ≠ "" := by
          intro hempty
          rw [hempty, show jsonParse "" = none from by decide] at hrtv
          exact Option.noConfusion hrtv
        subst hmseq
        refine ⟨hneq, ?_⟩
        have hL : processMetadataValue (some (.str (stringifyJson v))) = v := by
          unfold processMetadataValue
          rw [if_neg (show ¬(rawTruthy (some (.str (stringifyJson v))) = false) from by
            simp [rawTruthy, Json.truthy, hneq])]
          show (match jsonParse (stringifyJson v) with
            | some w => w
            | none => Json.obj []) = v
          rw [hrtv]
        rw [hL, processMetadataValue_keeps_truthy_nonstr ht hs]
    · rw [Bool.not_eq_true] at ht
      have hms2 : ms = "\x7b\x7d" := by
        revert hms
        simp only [metadataStringOf]
        rw [if_pos (show v.truthy = false from ht)]
        intro hh
        exact (Option.some.inj hh).symm
      subst hms2
      refine ⟨by decide, ?_⟩
      have hR : processMetadataValue (some v) = .obj [] := by
        unfold processMetadataValue
        rw [if_pos (show rawTruthy (some v) = false from by simp [rawTruthy, ht])]
      rw [hR]
      decide

/-- C8: after a successful `CreateRecord(u, a, r, d, m)` that answered 201
with the generated id, `GetRecord(id)` returns a record whose `userId`,
`action`, `resource` and `description` are the ones supplied, and whose
metadata deep-equals the normalized form of `m` (the read-path
normalization `processMetadataValue` applied to `m`). The `hrt` hypothesis
pins the modelled `JSON.parse`/`JSON.stringify` pair to the round-trip
behaviour of the platform's JSON on the supplied metadata value. -/
theorem create_then_get_roundtrip
    (L : Ledger) (u a r : String) (d : Option String) (m : Option Json)
    (fid now : String) (L1 : Ledger)
    (hrt : ∀ v : Json, m = some v → jsonParse (stringifyJson v) = some v)
    (hpost : postLog L u a r d m fid now = .created fid L1) :
    ∃ log : RawLog,
      routeGetLogById L1 fid = .okLog log ∧
      log.userId = u ∧ log.action = a ∧ log.resource = r ∧
      log.description = d.getD "" ∧
      log.metadata = some (processMetadataValue m) := by
  unfold postLog at hpost
  by_cases hv : (u = "" ∨ a = "" ∨ r = "")
  · rw [if_pos hv] at hpost
    cases hpost
  · rw [if_neg hv] at hpost
    rcases hmsc : metadataStringOf m with _ | ms
    · rw [hmsc] at hpost
      cases hpost
    · rw [hmsc] at hpost
      have hpost2 : (match createLog L fid u a r (d.getD "") ms now with
          | Except.ok l1 => PostResp.created fid l1
          | Except.error e => PostResp.serverError e) = PostResp.created fid L1 := hpost
      by_cases hex : logExists L fid = true
      · rw [show createLog L fid u a r (d.getD "") ms now
            = .error ("the log " ++ fid ++ " already exists") from by
            unfold createLog; rw [if_pos hex]] at hpost2
        cases hpost2
      · rw [show createLog L fid u a r (d.getD "") ms now
            = .ok ((fid, (⟨fid, u, a, r, now, d.getD "", ms⟩ : LogEvent)) :: L) from by
            unfold createLog; rw [if_neg hex]] at hpost2
        have hL1 : L1 = (fid, (⟨fid, u, a, r, now, d.getD "", ms⟩ : LogEvent)) :: L := by
          injection hpost2 with h1 h2
          exact h2.symm
        subst hL1
        rcases metadataString_roundtrip hrt hmsc with ⟨hmsne, hmsval⟩
        refine ⟨processLogMetadata (rawOfEvent ⟨fid, u, a, r, now, d.getD "", ms⟩),
          ?_, rfl, rfl, rfl, rfl, ?_⟩
        · unfold routeGetLogById readLog getState
          rw [List.find?_cons_of_pos _ (by simp)]
          rfl
        · show some (processMetadataValue
              (if ms = "" then none else some (.str ms))) = some (processMetadataValue m)
          rw [if_neg hmsne, hmsval]

/-- C8 (witness): the round-trip at a concrete create — object metadata,
non-empty description — read back through `GET /api/logs/:id`. -/
theorem create_then_get_roundtrip_witness :
    ∃ log : RawLog,
      routeGetLogById
          [("LOG9", (⟨"LOG9", "alice", "LOGIN", "app", "2024-03-01T00:00:00Z", "hi",
            "\x7b\"k\":1\x7d"⟩ : LogEvent))] "LOG9" = .okLog log ∧
      log.userId = "alice" ∧ log.action = "LOGIN" ∧ log.resource = "app" ∧
      log.description = (some "hi").getD "" ∧
      log.metadata = some (processMetadataValue (some (.obj [("k", .num 1)]))) :=
  create_then_get_roundtrip [] "alice" "LOGIN" "app" (some "hi")
    (some (.obj [("k", .num 1)])) "LOG9" "2024-03-01T00:00:00Z"
    [("LOG9", ⟨"LOG9", "alice", "LOGIN", "app", "2024-03-01T00:00:00Z", "hi",
      "\x7b\"k\":1\x7d"⟩)]
    (by intro v hv; injection hv with h; rw [← h]; decide)
    (by decide)
